import Mathlib

/-
Verification development for the release/versioning build scripts of the
repository (src/build/version.py, src/build/print_version.py,
src/build/release.py).

The Python scripts are shallowly embedded as executable Lean definitions:

* get_version      embeds version.py:get_version (reading version.json is
                   modelled by passing the parsed metadata record explicitly;
                   a missing JSON key raises KeyError, modelled as an error
                   value).
* print_version    embeds print_version.py (the forcing of the build
                   qualifier to None on a final build).
* resolve          the spec-level resolver contract, obtained by composing
                   the final-build forcing of print_version.py with
                   get_version, with the format selector mapped to the
                   as_pypi_version flag.
* changelogMatches embeds the changelog split of release.py line 86:
                   re.finditer over the pattern
                   (caret)(hash)(hash)v(ws)(lazy group)(ws)-(ws)dddd-dd-dd(lazy group)
                   with lookahead (end-of-text or line-start (hash)(hash)(ws)),
                   under MULTILINE and DOTALL.  Whitespace classes are
                   modelled as the six ASCII whitespace characters.
* findEntry        embeds release.py lines 86-96 as the spec contract
                   findEntry(document, label).
* release          embeds the straight-line orchestration of release.py,
                   recording the external side effects (listing fetch, tag
                   create, tag push) as an action trace.  The output of the
                   "git branch" collaborator is passed in as text, and
                   gitBranchOutput renders that text from a current branch
                   plus the other local branches.

Python string truthiness ("if suffix:", "if build:") is modelled as
non-emptiness; int(...) is modelled by pyInt (optionally signed decimal
digits with surrounding ASCII whitespace); the format spec ":03d" is
modelled by formatInt03.
-/

/-- The six ASCII whitespace characters recognised by the regex class
used in the scripts (space, tab, newline, carriage return, vertical tab,
form feed). -/
def isWs (c : Char) : Bool :=
  c == ' ' || c == '\t' || c == '\n' || c == '\r' || c == '\x0b' || c == '\x0c'

/-- Decimal value of a digit list (most significant first). -/
def digitsToNat (l : List Char) : Nat :=
  l.foldl (fun acc c => 10 * acc + (c.toNat - '0'.toNat)) 0

/-- Model of Python int(s) on a str argument: strip surrounding whitespace,
allow one optional sign, then require a non-empty run of decimal digits.
Returns none where int(...) raises ValueError. -/
def pyInt (s : String) : Option Int :=
  let t := ((s.data.dropWhile isWs).reverse.dropWhile isWs).reverse
  match t with
  | '+' :: ds =>
    if !ds.isEmpty && ds.all Char.isDigit then some (Int.ofNat (digitsToNat ds)) else none
  | '-' :: ds =>
    if !ds.isEmpty && ds.all Char.isDigit then some (-(Int.ofNat (digitsToNat ds))) else none
  | ds =>
    if !ds.isEmpty && ds.all Char.isDigit then some (Int.ofNat (digitsToNat ds)) else none

/-- Left-pad a string with zeros up to width w. -/
def leftPadZeros (w : Nat) (s : String) : String :=
  if s.length < w then String.mk (List.replicate (w - s.length) '0') ++ s else s

/-- Model of the Python format spec "{n:03d}": minimum width 3, zero
padded, the sign counted inside the width. -/
def formatInt03 (n : Int) : String :=
  if n < 0 then "-" ++ leftPadZeros 2 (Nat.repr n.natAbs)
  else leftPadZeros 3 (Nat.repr n.natAbs)

/-- The metadata record parsed from version.json.  Each field is present
or absent; version.py indexes the parsed dictionary with
version_data["version"] and version_data["suffix"], so an absent key
raises KeyError. -/
structure VersionJson where
  version? : Option String
  suffix? : Option String
  deriving DecidableEq, Repr

/-- The failures of version.py:get_version: a missing metadata key
(Python KeyError) or a build qualifier rejected by int(...) (Python
ValueError), the latter being the spec's MalformedQualifier. -/
inductive VersionError where
  | keyError : String → VersionError
  | malformedQualifier : VersionError
  deriving DecidableEq, Repr

/-- Embedding of version.py:get_version.  The version.json contents are
an explicit argument; build is None or a string; as_pypi_version selects
the package-index rendering of the qualifier. -/
def get_version (build : Option String) (as_pypi_version : Bool) (vd : VersionJson) :
    Except VersionError String :=
  match vd.version? with
  | none => Except.error (VersionError.keyError "version")
  | some version =>
    match vd.suffix? with
    | none => Except.error (VersionError.keyError "suffix")
    | some suffix =>
      if suffix = "" then Except.ok version
      else
        let v1 := version ++ "-" ++ suffix
        match build with
        | none => Except.ok v1
        | some b =>
          if b = "" then Except.ok v1
          else if as_pypi_version then
            match pyInt b with
            | none => Except.error VersionError.malformedQualifier
            | some n => Except.ok (v1 ++ formatInt03 n)
          else Except.ok (v1 ++ "." ++ b)

/-- The spec's format selector. -/
inductive VersionFormat where
  | Default : VersionFormat
  | PackageIndex : VersionFormat
  deriving DecidableEq, Repr

/-- The as_pypi_version flag corresponding to a format selector. -/
def VersionFormat.asPypi : VersionFormat → Bool
  | VersionFormat.Default => false
  | VersionFormat.PackageIndex => true

/-- The spec contract resolve(metadata, buildQualifier, format,
isFinalBuild): print_version.py forces the qualifier to None when the
final-build flag is set and then calls get_version. -/
def resolve (vd : VersionJson) (build : Option String) (fmt : VersionFormat)
    (isFinalBuild : Bool) : Except VersionError String :=
  get_version (if isFinalBuild then none else build) fmt.asPypi vd

/-- Embedding of print_version.py: the three command-line arguments (the
build qualifier and the textual "true"/"false" flags) and the metadata. -/
def print_version (buildArg isFinalArg asPypiArg : String) (vd : VersionJson) :
    Except VersionError String :=
  let is_final_build := isFinalArg == "true"
  let as_pypi_version := asPypiArg == "true"
  let build := if is_final_build then none else some buildArg
  get_version build as_pypi_version vd

/-- True when the text begins with the three-character lookahead shape of
the changelog pattern: two hash marks followed by one whitespace
character (the line-start condition is checked by the caller). -/
def startsHH : List Char → Bool
  | '#' :: '#' :: w :: _ => isWs w
  | _ => false

/-- Shape test for the thirteen characters that close a changelog header:
one whitespace, a dash, one whitespace, then the ten-character date
dddd-dd-dd. -/
def tail13OK : List Char → Bool
  | [w1, h1, w2, a, b, c, d, h2, e, f, h3, g, k] =>
    isWs w1 && h1 == '-' && isWs w2 &&
      a.isDigit && b.isDigit && c.isDigit && d.isDigit && h2 == '-' &&
      e.isDigit && f.isDigit && h3 == '-' && g.isDigit && k.isDigit
  | _ => false

/-- Try to read the thirteen-character header tail at the head of the
text; on success return it together with the remaining text. -/
def matchTail13 (l : List Char) : Option (List Char × List Char) :=
  if (l.take 13).length = 13 && tail13OK (l.take 13) then some (l.take 13, l.drop 13)
  else none

/-- The lazy label group of the header pattern: the shortest prefix after
which the thirteen-character tail matches (the group may span newlines,
matching the DOTALL behaviour of the source pattern).  Returns the label
group, the tail characters and the remaining text. -/
def findG1 : List Char → Option (List Char × List Char × List Char)
  | [] => none
  | c :: rest =>
    match matchTail13 (c :: rest) with
    | some (t13, r) => some ([], t13, r)
    | none =>
      match findG1 rest with
      | some (g1, t13, r) => some (c :: g1, t13, r)
      | none => none

/-- A successfully parsed changelog header: the full consumed header text,
the label group, the date, and the text remaining after the header. -/
structure HeaderMatch where
  header : List Char
  label : List Char
  date : List Char
  rest : List Char
  deriving DecidableEq, Repr

/-- Try to parse a changelog header at the current position (the caller
guarantees the position is a line start): two hash marks, one whitespace
character, then the lazily matched label group closed by the
whitespace-dash-whitespace-date tail. -/
def matchHeaderAt : List Char → Option HeaderMatch
  | c1 :: c2 :: w :: rest =>
    if c1 == '#' && c2 == '#' && isWs w then
      match findG1 rest with
      | some (g1, t13, r) =>
        some ⟨c1 :: c2 :: w :: (g1 ++ t13), g1, t13.drop 3, r⟩
      | none => none
    else none
  | _ => none

/-- The lazy body group with its lookahead: consume text until the
position right after a newline at which the remaining text starts with
two hash marks and a whitespace character, or until end of text.  Returns
the body group and the remaining text. -/
def scanG2 : List Char → List Char × List Char
  | [] => ([], [])
  | c :: rest =>
    if c == '\n' && startsHH rest then ([c], rest)
    else ((c :: (scanG2 rest).1), (scanG2 rest).2)

/-- One entry produced by the changelog split: the header span, the label
group, the date, and the body span (everything from the end of the header
up to the next header-like line start or end of text). -/
structure ChangelogEntry where
  header : List Char
  label : List Char
  date : List Char
  body : List Char
  deriving DecidableEq, Repr

/-- The finditer scan: walk the text left to right; at each line start
try to parse a header, emit the entry whose body is delimited by the
lookahead, and continue scanning at the position where the body stopped
(matches are consumed, hence non-overlapping).  The fuel argument bounds
the recursion and is instantiated with the text length, which the scan
never exhausts. -/
def findMatchesAux : Nat → List Char → Bool → List ChangelogEntry
  | 0, _, _ => []
  | _ + 1, [], _ => []
  | fuel + 1, c :: rest, true =>
    match matchHeaderAt (c :: rest) with
    | some hm =>
      ⟨hm.header, hm.label, hm.date, (scanG2 hm.rest).1⟩ ::
        findMatchesAux fuel (scanG2 hm.rest).2 true
    | none => findMatchesAux fuel rest (c == '\n')
  | fuel + 1, c :: rest, false => findMatchesAux fuel rest (c == '\n')

/-- Embedding of the changelog split of release.py line 86: the list of
entries found by the finditer scan over the document, starting at a line
start. -/
def changelogMatches (doc : String) : List ChangelogEntry :=
  findMatchesAux doc.data.length doc.data true

/-- Model of Python str.strip(): drop whitespace from both ends. -/
def pyStrip (l : List Char) : List Char :=
  ((l.dropWhile isWs).reverse.dropWhile isWs).reverse

/-- The two failures of the changelog lookup in release.py: no header
matched anywhere (the document is malformed, line 89) and no entry
carries the requested label (line 94). -/
inductive ChangelogError where
  | ChangelogMalformed : ChangelogError
  | NotFound : ChangelogError
  deriving DecidableEq, Repr

/-- Embedding of release.py lines 86-96 as the spec contract
findEntry(document, versionLabel): split the document, fail with
ChangelogMalformed when the split found nothing, otherwise look for the
first entry whose label equals the requested label exactly, failing with
NotFound when there is none; the returned body is stripped. -/
def findEntry (doc : String) (label : String) : Except ChangelogError ChangelogEntry :=
  match changelogMatches doc with
  | [] => Except.error ChangelogError.ChangelogMalformed
  | e :: es =>
    match (e :: es).find? (fun x => x.label == label.data) with
    | some m => Except.ok { m with body := pyStrip m.body }
    | none => Except.error ChangelogError.NotFound

/-- The concrete two-entry changelog document used by the spec's
examples. -/
def chlogDoc : String :=
  "## v1.0.0 - 2024-01-01\nfix A\n## v1.1.0 - 2024-02-02\nfix B"

/-- A document whose single entry is followed by a header-like line that
never completes into a header (no date follows), so the entry's body
stops before the end of the document. -/
def chlogDoc2 : String :=
  "## v1.0.0 - 2024-01-01\nA\n## x"

/-- Substring containment, the model of the Python expression
"pat in s": pat is a prefix of some suffix of s. -/
def containsSub (pat : List Char) : List Char → Bool
  | [] => pat.isEmpty
  | c :: rest => pat.isPrefixOf (c :: rest) || containsSub pat rest

/-- The text release.py line 55 looks for in the output of the
"git branch" collaborator. -/
def starMaster : List Char := "* master".data

/-- Rendering of the "git branch" collaborator output from the current
branch and the other local branches: the current branch line carries the
asterisk marker, every other line two spaces, each line
newline-terminated. -/
def gitBranchOutput (current : List Char) (others : List (List Char)) : List Char :=
  '*' :: ' ' :: (current ++ '\n' :: (others.map (fun b => ' ' :: ' ' :: (b ++ ['\n']))).flatten)

/-- The inputs of one release run: the version metadata, the text printed
by the branch-query collaborator, the names returned by the
release-listing collaborator, and the changelog document. -/
structure World where
  version_json : VersionJson
  git_branch_output : List Char
  releases : List String
  changelog : String

/-- The external calls release.py performs after its checks: the
release-listing fetch and the two version-control mutations. -/
inductive ReleaseAction where
  | fetchReleases : ReleaseAction
  | createTag : String → List Char → ReleaseAction
  | pushTag : String → ReleaseAction
  deriving DecidableEq, Repr

/-- The terminal failures of release.py, one per raise site. -/
inductive ReleaseError where
  | versionError : VersionError → ReleaseError
  | wrongBranch : ReleaseError
  | alreadyExists : ReleaseError
  | changelogMalformed : ReleaseError
  | versionNotFound : ReleaseError
  deriving DecidableEq, Repr

/-- Embedding of the straight-line run of release.py: resolve the final
version (build=None), check the branch-query output for the text
"* master", fetch the release listing and require the version to be new,
split the changelog and require an entry for the version, then create and
push the annotated tag.  The second component records the external calls
in order. -/
def release (w : World) : Except ReleaseError Unit × List ReleaseAction :=
  match get_version none false w.version_json with
  | Except.error e => (Except.error (ReleaseError.versionError e), [])
  | Except.ok ver =>
    let final_version := "v" ++ ver
    if containsSub starMaster w.git_branch_output then
      if final_version ∈ w.releases then
        (Except.error ReleaseError.alreadyExists, [ReleaseAction.fetchReleases])
      else
        match changelogMatches w.changelog with
        | [] => (Except.error ReleaseError.changelogMalformed, [ReleaseAction.fetchReleases])
        | e :: es =>
          match (e :: es).find? (fun x => x.label == final_version.data) with
          | none => (Except.error ReleaseError.versionNotFound, [ReleaseAction.fetchReleases])
          | some m =>
            (Except.ok (), [ReleaseAction.fetchReleases,
              ReleaseAction.createTag final_version (pyStrip m.body),
              ReleaseAction.pushTag final_version])
    else (Except.error ReleaseError.wrongBranch, [])

/-- A line-start position of the scan: either nothing has been consumed
and the scan began at a line start, or the consumed prefix ends with a
newline. -/
def LineStartCond (atStart : Bool) (pre : List Char) : Prop :=
  (pre = [] ∧ atStart = true) ∨ ∃ p, pre = p ++ ['\n']

/-- Some line-start position of the document carries a header of the
required shape (two hash marks, a whitespace character, a label group
closed by whitespace-dash-whitespace-date). -/
def HeaderExists (doc : String) : Prop :=
  ∃ pre rest, doc.data = pre ++ rest ∧ LineStartCond true pre ∧ matchHeaderAt rest ≠ none

/-- The span an entry occupies inside the source text: its header
followed by its body. -/
def entrySpan (e : ChangelogEntry) : List Char := e.header ++ e.body

/-- The entries tile the text from left to right: every entry's span is a
contiguous segment, the segments appear in order without overlapping, and
after the last entry's span the text either ends or continues with a
header-like line start (two hash marks and a whitespace character). -/
def EntryChain : List Char → List ChangelogEntry → Prop
  | _, [] => True
  | cs, e :: es =>
    ∃ gap rest, cs = gap ++ entrySpan e ++ rest
      ∧ (es = [] → rest = [] ∨ startsHH rest = true)
      ∧ EntryChain rest es

/-- The padded string has length max w (length s). -/
theorem leftPadZeros_length (w : Nat) (s : String) :
    (leftPadZeros w s).length = max w s.length := by
  unfold leftPadZeros
  split
  · rename_i h
    rw [String.length_append]
    simp only [String.length_mk, List.length_replicate]
    omega
  · rename_i h
    omega

/-- The package-index rendering of a qualifier always has at least three
characters. -/
theorem formatInt03_length (n : Int) : 3 ≤ (formatInt03 n).length := by
  unfold formatInt03
  split
  · rw [String.length_append, leftPadZeros_length]
    have h1 : ("-" : String).length = 1 := rfl
    have h2 := Nat.le_max_left 2 (Nat.repr n.natAbs).length
    omega
  · rw [leftPadZeros_length]
    exact Nat.le_max_left 3 _

/-- C2 (confirmed): for every metadata whose prerelease suffix is the
empty string, resolve returns exactly the base version, for every build
qualifier, both format selectors and both final-build flags; the
qualifier is never appended when no suffix is present. -/
theorem c2_empty_suffix_returns_base :
    ∀ (vd : VersionJson) (base : String) (build : Option String) (fmt : VersionFormat)
      (fin : Bool), vd.version? = some base → vd.suffix? = some "" →
      resolve vd build fmt fin = Except.ok base := by
  intro vd base build fmt fin hv hs
  simp [resolve, get_version, hv, hs]

/-- Witness for c2_empty_suffix_returns_base at the metadata
(version "1.0.0", suffix "") with a present non-numeric qualifier, the
package-index format and a non-final build. -/
theorem c2_empty_suffix_returns_base_witness :
    resolve ⟨some "1.0.0", some ""⟩ (some "abc") VersionFormat.PackageIndex false
      = Except.ok "1.0.0" :=
  c2_empty_suffix_returns_base ⟨some "1.0.0", some ""⟩ "1.0.0" (some "abc")
    VersionFormat.PackageIndex false rfl rfl

/-- C3 (confirmed): for every metadata with a non-empty suffix, a final
build forces the supplied qualifier to absent and resolve returns exactly
baseVersion-suffix, for every supplied qualifier and format selector. -/
theorem c3_final_build_ignores_qualifier :
    ∀ (vd : VersionJson) (base sfx : String) (build : Option String) (fmt : VersionFormat),
      vd.version? = some base → vd.suffix? = some sfx → sfx ≠ "" →
      resolve vd build fmt true = Except.ok (base ++ "-" ++ sfx) := by
  intro vd base sfx build fmt hv hs hne
  simp [resolve, get_version, hv, hs, hne]

/-- Witness for c3_final_build_ignores_qualifier: a final build with a
supplied qualifier "7" and the package-index format still yields
2.3.0-beta. -/
theorem c3_final_build_ignores_qualifier_witness :
    ("beta" : String) ≠ "" ∧
      resolve ⟨some "2.3.0", some "beta"⟩ (some "7") VersionFormat.PackageIndex true
        = Except.ok ("2.3.0" ++ "-" ++ "beta") :=
  ⟨by decide, c3_final_build_ignores_qualifier ⟨some "2.3.0", some "beta"⟩ "2.3.0" "beta"
    (some "7") VersionFormat.PackageIndex rfl rfl (by decide)⟩

/-- C10 (confirmed): a metadata document with a version field but no
suffix field makes resolve fail (the KeyError raised by
version_data["suffix"]) for every qualifier, format selector and
final-build flag; and resolution succeeds only when both the version and
the suffix keys are present. -/
theorem c10_suffix_key_required :
    (∀ (vd : VersionJson) (base : String) (build : Option String) (fmt : VersionFormat)
      (fin : Bool), vd.version? = some base → vd.suffix? = none →
      resolve vd build fmt fin = Except.error (VersionError.keyError "suffix"))
    ∧ (∀ (vd : VersionJson) (build : Option String) (fmt : VersionFormat) (fin : Bool)
      (s : String), resolve vd build fmt fin = Except.ok s →
      vd.version? ≠ none ∧ vd.suffix? ≠ none) := by
  constructor
  · intro vd base build fmt fin hv hs
    simp [resolve, get_version, hv, hs]
  · intro vd build fmt fin s hok
    unfold resolve get_version at hok
    constructor
    · intro hv
      rw [hv] at hok
      exact Except.noConfusion hok
    · intro hs
      cases hv : vd.version? with
      | none => rw [hv] at hok; exact Except.noConfusion hok
      | some base => rw [hv, hs] at hok; exact Except.noConfusion hok

/-- Witness for c10_suffix_key_required: metadata with version "3.0.0"
and no suffix key fails with the KeyError for "suffix". -/
theorem c10_suffix_key_required_witness :
    resolve ⟨some "3.0.0", none⟩ none VersionFormat.Default false
      = Except.error (VersionError.keyError "suffix") :=
  c10_suffix_key_required.1 ⟨some "3.0.0", none⟩ "3.0.0" none VersionFormat.Default false
    rfl rfl

/-- C1 counterexample: the package-index rendering is a minimum width,
not an exact width.  With qualifier "1234" the resolved string is
2.3.0-beta1234: its length is 14, while an exactly-three-digit rendering
appended to the ten-character 2.3.0-beta would give length 13. -/
theorem c1_counterexample :
    resolve ⟨some "2.3.0", some "beta"⟩ (some "1234") VersionFormat.PackageIndex false
      = Except.ok "2.3.0-beta1234"
    ∧ ("2.3.0-beta1234" : String).length ≠ ("2.3.0-beta" : String).length + 3 := by
  exact ⟨rfl, by decide⟩

/-- C1 (corrected): for every metadata with non-empty suffix, a present
(non-empty) qualifier that parses as an integer, the package-index
format and a non-final build, resolve appends the qualifier rendered
zero-padded to a minimum of three digits (not exactly three) directly to
baseVersion-suffix with no separator; the rendering always has at least
three characters, and the end-to-end example resolves to 2.3.0-beta007. -/
theorem c1_package_index_rendering :
    (∀ (vd : VersionJson) (base sfx b : String) (n : Int),
      vd.version? = some base → vd.suffix? = some sfx → sfx ≠ "" → b ≠ "" →
      pyInt b = some n →
      resolve vd (some b) VersionFormat.PackageIndex false
        = Except.ok (base ++ "-" ++ sfx ++ formatInt03 n))
    ∧ (∀ n : Int, 3 ≤ (formatInt03 n).length)
    ∧ resolve ⟨some "2.3.0", some "beta"⟩ (some "7") VersionFormat.PackageIndex false
        = Except.ok "2.3.0-beta007" := by
  refine ⟨?_, formatInt03_length, rfl⟩
  intro vd base sfx b n hv hs hsne hbne hpy
  simp [resolve, get_version, VersionFormat.asPypi, hv, hs, hsne, hbne, hpy,
    String.append_assoc]

/-- Witness for c1_package_index_rendering at the spec's end-to-end
example: qualifier "7" parses to 7 and is rendered as 007. -/
theorem c1_package_index_rendering_witness :
    pyInt "7" = some 7 ∧ formatInt03 7 = "007"
    ∧ resolve ⟨some "2.3.0", some "beta"⟩ (some "7") VersionFormat.PackageIndex false
        = Except.ok ("2.3.0" ++ "-" ++ "beta" ++ formatInt03 7) :=
  ⟨rfl, rfl, c1_package_index_rendering.1 ⟨some "2.3.0", some "beta"⟩ "2.3.0" "beta" "7" 7
    rfl rfl (by decide) (by decide) rfl⟩

/-- C5 counterexample: the claim quantifies over every metadata, but with
an empty suffix the qualifier is never parsed, so a non-integer qualifier
under the package-index format succeeds instead of failing with
MalformedQualifier. -/
theorem c5_counterexample :
    resolve ⟨some "2.0.0", some ""⟩ (some "abc") VersionFormat.PackageIndex false
      = Except.ok "2.0.0"
    ∧ resolve ⟨some "2.0.0", some ""⟩ (some "abc") VersionFormat.PackageIndex false
      ≠ Except.error VersionError.malformedQualifier := by
  refine ⟨rfl, ?_⟩
  intro h
  rw [show resolve ⟨some "2.0.0", some ""⟩ (some "abc") VersionFormat.PackageIndex false
    = Except.ok "2.0.0" from rfl] at h
  exact Except.noConfusion h

/-- C5 (corrected): restricted to resolutions that actually reach the
qualifier (non-empty suffix, present non-empty qualifier, non-final
build), the package-index format fails with MalformedQualifier exactly
when the qualifier cannot parse as an integer, and succeeds with the
integer-rendered qualifier when it can. -/
theorem c5_malformed_qualifier :
    ∀ (vd : VersionJson) (base sfx b : String),
      vd.version? = some base → vd.suffix? = some sfx → sfx ≠ "" → b ≠ "" →
      (pyInt b = none →
        resolve vd (some b) VersionFormat.PackageIndex false
          = Except.error VersionError.malformedQualifier)
      ∧ (∀ n : Int, pyInt b = some n →
        resolve vd (some b) VersionFormat.PackageIndex false
          = Except.ok (base ++ "-" ++ sfx ++ formatInt03 n)) := by
  intro vd base sfx b hv hs hsne hbne
  constructor
  · intro hpy
    simp [resolve, get_version, VersionFormat.asPypi, hv, hs, hsne, hbne, hpy]
  · intro n hpy
    simp [resolve, get_version, VersionFormat.asPypi, hv, hs, hsne, hbne, hpy,
      String.append_assoc]

/-- Witness for c5_malformed_qualifier: the non-integer qualifier "x7"
under the package-index format fails with MalformedQualifier, and the
integer qualifier "123" is rendered as 123. -/
theorem c5_malformed_qualifier_witness :
    (resolve ⟨some "1.0.0", some "rc1"⟩ (some "x7") VersionFormat.PackageIndex false
      = Except.error VersionError.malformedQualifier)
    ∧ resolve ⟨some "1.0.0", some "rc1"⟩ (some "123") VersionFormat.PackageIndex false
      = Except.ok ("1.0.0" ++ "-" ++ "rc1" ++ formatInt03 123) :=
  ⟨(c5_malformed_qualifier ⟨some "1.0.0", some "rc1"⟩ "1.0.0" "rc1" "x7" rfl rfl
      (by decide) (by decide)).1 rfl,
   (c5_malformed_qualifier ⟨some "1.0.0", some "rc1"⟩ "1.0.0" "rc1" "123" rfl rfl
      (by decide) (by decide)).2 123 rfl⟩

/-- C4 (confirmed): on the two-header example document, findEntry returns
the disjoint stripped bodies ("fix A" and "fix B") for the two labels and
NotFound for v9.9.9; matching is exact-string, so the partial labels
"1.0.0" and "v1.0" are also NotFound.  The final conjunct exhibits the
disjoint spans: the document is exactly header one, body one, header two,
body two. -/
theorem c4_find_entry_examples :
    findEntry chlogDoc "v1.0.0"
      = Except.ok ⟨"## v1.0.0 - 2024-01-01".data, "v1.0.0".data, "2024-01-01".data,
          "fix A".data⟩
    ∧ findEntry chlogDoc "v1.1.0"
      = Except.ok ⟨"## v1.1.0 - 2024-02-02".data, "v1.1.0".data, "2024-02-02".data,
          "fix B".data⟩
    ∧ findEntry chlogDoc "v9.9.9" = Except.error ChangelogError.NotFound
    ∧ findEntry chlogDoc "1.0.0" = Except.error ChangelogError.NotFound
    ∧ findEntry chlogDoc "v1.0" = Except.error ChangelogError.NotFound
    ∧ chlogDoc.data = "## v1.0.0 - 2024-01-01".data ++ "\nfix A\n".data
        ++ "## v1.1.0 - 2024-02-02".data ++ "\nfix B".data :=
  ⟨rfl, rfl, rfl, rfl, rfl, rfl⟩

/-- A successful tail match splits the text as the thirteen tail
characters followed by the remainder. -/
theorem matchTail13_eq_some {l t13 r : List Char} (h : matchTail13 l = some (t13, r)) :
    l = t13 ++ r ∧ t13 ≠ [] := by
  unfold matchTail13 at h
  split at h
  · rename_i hcond
    rw [Option.some.injEq, Prod.mk.injEq] at h
    obtain ⟨h1, h2⟩ := h
    subst h1
    subst h2
    refine ⟨(List.take_append_drop 13 l).symm, ?_⟩
    simp only [Bool.and_eq_true, decide_eq_true_eq] at hcond
    intro hnil
    rw [hnil] at hcond
    exact absurd hcond.1 (by decide)
  · exact Option.noConfusion h

/-- A successful lazy label search splits the text as label group, tail,
remainder. -/
theorem findG1_eq_some {l g1 t13 r : List Char} (h : findG1 l = some (g1, t13, r)) :
    l = g1 ++ t13 ++ r := by
  induction l generalizing g1 with
  | nil => exact Option.noConfusion h
  | cons c rest ih =>
    rw [findG1] at h
    cases hmt : matchTail13 (c :: rest) with
    | some p =>
      obtain ⟨t, r'⟩ := p
      rw [hmt] at h
      rw [Option.some.injEq, Prod.mk.injEq, Prod.mk.injEq] at h
      obtain ⟨h1, h2, h3⟩ := h
      subst h1
      subst h2
      subst h3
      simpa using (matchTail13_eq_some hmt).1
    | none =>
      rw [hmt] at h
      cases hg : findG1 rest with
      | none => rw [hg] at h; exact Option.noConfusion h
      | some q =>
        obtain ⟨g1', t', r''⟩ := q
        rw [hg] at h
        rw [Option.some.injEq, Prod.mk.injEq, Prod.mk.injEq] at h
        obtain ⟨h1, h2, h3⟩ := h
        subst h1
        subst h2
        subst h3
        have := ih hg
        simp [this]

/-- A successful header parse splits the text as the header span followed
by the remainder, and the header span is non-empty. -/
theorem matchHeaderAt_eq_some {cs : List Char} {hm : HeaderMatch}
    (h : matchHeaderAt cs = some hm) :
    cs = hm.header ++ hm.rest ∧ hm.header ≠ [] := by
  rcases cs with _ | ⟨c1, _ | ⟨c2, _ | ⟨w, rest⟩⟩⟩
  · exact Option.noConfusion h
  · exact Option.noConfusion h
  · exact Option.noConfusion h
  · simp only [matchHeaderAt] at h
    split at h
    · cases hg : findG1 rest with
      | none => rw [hg] at h; simp at h
      | some q =>
        obtain ⟨g1, t13, r⟩ := q
        rw [hg] at h
        simp only [Option.some.injEq] at h
        subst h
        have hsplit := findG1_eq_some hg
        constructor
        · simp [hsplit]
        · simp
    · exact Option.noConfusion h

/-- The body scan splits its input as body group followed by remainder. -/
theorem scanG2_append (l : List Char) : l = (scanG2 l).1 ++ (scanG2 l).2 := by
  induction l with
  | nil => rfl
  | cons c rest ih =>
    simp only [scanG2]
    split
    · rfl
    · simp only [List.cons_append]
      exact congrArg (List.cons c) ih

/-- The remainder of the body scan is no longer than its input. -/
theorem scanG2_snd_length (l : List Char) : (scanG2 l).2.length ≤ l.length := by
  conv_rhs => rw [scanG2_append l]
  rw [List.length_append]
  omega

/-- The body scan stops at end of text or at a header-like line start. -/
theorem scanG2_tail (l : List Char) :
    (scanG2 l).2 = [] ∨ startsHH (scanG2 l).2 = true := by
  induction l with
  | nil => left; rfl
  | cons c rest ih =>
    simp only [scanG2]
    split
    · rename_i hcond
      right
      exact ((Bool.and_eq_true _ _).mp hcond).2
    · exact ih

/-- Shifting the scan by one character: when the head position cannot
start a match (the scan is not at a line start there, or the header parse
fails there), the no-header condition for the whole text is equivalent to
the no-header condition for the tail, with the line-start flag recomputed
from the consumed character. -/
theorem lineStart_shift (c : Char) (rest : List Char) (atStart : Bool)
    (hside : atStart = false ∨ matchHeaderAt (c :: rest) = none) :
    ((∀ pre r, c :: rest = pre ++ r → LineStartCond atStart pre → matchHeaderAt r = none) ↔
      (∀ pre r, rest = pre ++ r → LineStartCond (c == '\n') pre → matchHeaderAt r = none)) := by
  constructor
  · intro H pre r hsplit hls
    refine H (c :: pre) r (by rw [hsplit]; rfl) ?_
    rcases hls with ⟨hpre, hc⟩ | ⟨p, hp⟩
    · subst hpre
      right
      refine ⟨[], ?_⟩
      have hcn : c = '\n' := by simpa using hc
      rw [hcn]
      rfl
    · right
      exact ⟨c :: p, by rw [hp]; rfl⟩
  · intro H pre r hsplit hls
    cases pre with
    | nil =>
      simp only [List.nil_append] at hsplit
      subst hsplit
      rcases hls with ⟨_, hstart⟩ | ⟨p, hp⟩
      · rcases hside with hfalse | hnone
        · rw [hstart] at hfalse
          exact Bool.noConfusion hfalse
        · exact hnone
      · exact absurd hp (by simp)
    | cons c' pre' =>
      rw [List.cons_append] at hsplit
      injection hsplit with hc hrest
      subst hc
      refine H pre' r hrest ?_
      rcases hls with ⟨habs, _⟩ | ⟨p, hp⟩
      · exact absurd habs (by simp)
      · cases p with
        | nil =>
          simp only [List.nil_append] at hp
          injection hp with h1 h2
          left
          refine ⟨h2, ?_⟩
          rw [h1]
          rfl
        | cons q p' =>
          rw [List.cons_append] at hp
          injection hp with h1 h2
          right
          exact ⟨p', h2⟩

/-- The finditer scan finds nothing exactly when no line-start position
of the text carries a header of the required shape. -/
theorem findMatchesAux_nil_iff :
    ∀ (fuel : Nat) (cs : List Char) (atStart : Bool), cs.length ≤ fuel →
      (findMatchesAux fuel cs atStart = [] ↔
        ∀ pre r, cs = pre ++ r → LineStartCond atStart pre → matchHeaderAt r = none) := by
  intro fuel
  induction fuel with
  | zero =>
    intro cs atStart hf
    have hcs : cs = [] := List.length_eq_zero.mp (Nat.le_zero.mp hf)
    subst hcs
    constructor
    · intro _ pre r hsplit _
      obtain ⟨hpre, hr⟩ := List.append_eq_nil.mp hsplit.symm
      rw [hr]
      rfl
    · intro _
      rfl
  | succ fuel ih =>
    intro cs atStart hf
    cases cs with
    | nil =>
      constructor
      · intro _ pre r hsplit _
        obtain ⟨hpre, hr⟩ := List.append_eq_nil.mp hsplit.symm
        rw [hr]
        rfl
      · intro _
        rfl
    | cons c rest =>
      have hlen : rest.length ≤ fuel := by
        simp only [List.length_cons] at hf
        omega
      cases atStart with
      | false =>
        show findMatchesAux fuel rest (c == '\n') = [] ↔ _
        rw [ih rest (c == '\n') hlen]
        exact (lineStart_shift c rest false (Or.inl rfl)).symm
      | true =>
        cases hm : matchHeaderAt (c :: rest) with
        | some v =>
          simp only [findMatchesAux, hm]
          constructor
          · intro habs
            exact List.noConfusion habs
          · intro H
            exact absurd (H [] (c :: rest) rfl (Or.inl ⟨rfl, rfl⟩)) (by rw [hm]; simp)
        | none =>
          simp only [findMatchesAux, hm]
          rw [ih rest (c == '\n') hlen]
          exact (lineStart_shift c rest true (Or.inr hm)).symm

/-- The changelog split of a document is empty exactly when the document
has no line-start header of the required shape. -/
theorem changelogMatches_nil_iff (doc : String) :
    changelogMatches doc = [] ↔ ¬ HeaderExists doc := by
  unfold changelogMatches HeaderExists
  rw [findMatchesAux_nil_iff doc.data.length doc.data true (Nat.le_refl _)]
  constructor
  · rintro H ⟨pre, rest, hsplit, hls, hne⟩
    exact hne (H pre rest hsplit hls)
  · intro H pre rest hsplit hls
    by_contra hne
    exact H ⟨pre, rest, hsplit, hls, hne⟩

/-- C6 (confirmed): for every document and label, findEntry fails with
ChangelogMalformed exactly when no line-start position of the document
carries a header of the required shape, and yields the distinct NotFound
outcome exactly when such a header exists but no entry of the split
carries the requested label. -/
theorem c6_error_distinction :
    ∀ (doc lbl : String),
      (findEntry doc lbl = Except.error ChangelogError.ChangelogMalformed ↔
        ¬ HeaderExists doc)
      ∧ (findEntry doc lbl = Except.error ChangelogError.NotFound ↔
        (HeaderExists doc ∧ ∀ e ∈ changelogMatches doc, e.label ≠ lbl.data)) := by
  intro doc lbl
  cases hm : changelogMatches doc with
  | nil =>
    have hnohdr : ¬ HeaderExists doc := (changelogMatches_nil_iff doc).mp hm
    have hfe : findEntry doc lbl = Except.error ChangelogError.ChangelogMalformed := by
      unfold findEntry
      simp only [hm]
    rw [hfe]
    constructor
    · exact ⟨fun _ => hnohdr, fun _ => rfl⟩
    · constructor
      · intro habs
        exact absurd habs (by simp)
      · rintro ⟨hhe, _⟩
        exact absurd hhe hnohdr
  | cons e es =>
    have hhe : HeaderExists doc := by
      by_contra hno
      rw [(changelogMatches_nil_iff doc).mpr hno] at hm
      exact List.noConfusion hm
    cases hf : (e :: es).find? (fun x => x.label == lbl.data) with
    | some m =>
      have hfe : findEntry doc lbl = Except.ok { m with body := pyStrip m.body } := by
        unfold findEntry
        simp only [hm, hf]
      rw [hfe]
      have hlab := List.find?_some hf
      simp only [beq_iff_eq] at hlab
      constructor
      · exact ⟨fun habs => absurd habs (by simp), fun hno => absurd hhe hno⟩
      · refine ⟨fun habs => absurd habs (by simp), ?_⟩
        rintro ⟨_, hall⟩
        exact absurd hlab (hall m (List.mem_of_find?_eq_some hf))
    | none =>
      have hfe : findEntry doc lbl = Except.error ChangelogError.NotFound := by
        unfold findEntry
        simp only [hm, hf]
      rw [hfe]
      constructor
      · exact ⟨fun habs => absurd habs (by simp), fun hno => absurd hhe hno⟩
      · refine ⟨fun _ => ⟨hhe, ?_⟩, fun _ => rfl⟩
        intro x hx
        have hx' := List.find?_eq_none.mp hf x hx
        simpa using hx'

/-- An entry tiling survives prepending one character of leading text. -/
theorem entryChain_cons (c : Char) {cs : List Char} {es : List ChangelogEntry}
    (h : EntryChain cs es) : EntryChain (c :: cs) es := by
  cases es with
  | nil => exact True.intro
  | cons e es' =>
    obtain ⟨gap, rest, h1, h2, h3⟩ := h
    exact ⟨c :: gap, rest, by rw [h1]; rfl, h2, h3⟩

/-- The entries found by the finditer scan tile the scanned text. -/
theorem findMatchesAux_chain :
    ∀ (fuel : Nat) (cs : List Char) (atStart : Bool), cs.length ≤ fuel →
      EntryChain cs (findMatchesAux fuel cs atStart) := by
  intro fuel
  induction fuel with
  | zero =>
    intro cs atStart hf
    have hcs : cs = [] := List.length_eq_zero.mp (Nat.le_zero.mp hf)
    subst hcs
    exact True.intro
  | succ fuel ih =>
    intro cs atStart hf
    cases cs with
    | nil => exact True.intro
    | cons c rest =>
      have hlen : rest.length ≤ fuel := by
        simp only [List.length_cons] at hf
        omega
      cases atStart with
      | false => exact entryChain_cons c (ih rest (c == '\n') hlen)
      | true =>
        cases hmh : matchHeaderAt (c :: rest) with
        | none =>
          simp only [findMatchesAux, hmh]
          exact entryChain_cons c (ih rest (c == '\n') hlen)
        | some v =>
          simp only [findMatchesAux, hmh]
          obtain ⟨hsplit, hne⟩ := matchHeaderAt_eq_some hmh
          have h1 := scanG2_snd_length v.rest
          have h2 : (c :: rest).length = v.header.length + v.rest.length := by
            rw [hsplit, List.length_append]
          have h3 : 1 ≤ v.header.length := by
            cases hh : v.header with
            | nil => exact absurd hh hne
            | cons a l => simp
          have hr2len : (scanG2 v.rest).2.length ≤ fuel := by
            simp only [List.length_cons] at hf h2
            omega
          refine ⟨[], (scanG2 v.rest).2, ?_, fun _ => scanG2_tail v.rest, ih _ true hr2len⟩
          show c :: rest = [] ++ (v.header ++ (scanG2 v.rest).1) ++ (scanG2 v.rest).2
          rw [List.nil_append, List.append_assoc, ← scanG2_append v.rest]
          exact hsplit

/-- C9 counterexample: in the document chlogDoc2 the single entry's body
is the three characters newline-A-newline, which is not even a suffix of
the document: the trailing header-like text after the lookahead position
lies outside every entry, so the last entry's body does not extend to the
end of the document. -/
theorem c9_counterexample :
    (changelogMatches chlogDoc2).map ChangelogEntry.body = ["\nA\n".data]
    ∧ List.isSuffixOf "\nA\n".data chlogDoc2.data = false :=
  ⟨rfl, rfl⟩

/-- C9 (corrected): for every document with at least one match, the
entries of the split tile the source text as disjoint, in-order,
non-overlapping spans, and after the last entry's span the document
either ends or continues with a header-like line start (two hash marks
and a whitespace character) that never completed into a header. -/
theorem c9_entry_spans :
    ∀ doc : String, changelogMatches doc ≠ [] →
      EntryChain doc.data (changelogMatches doc) :=
  fun doc _ => findMatchesAux_chain doc.data.length doc.data true (Nat.le_refl _)

/-- Witness for c9_entry_spans at the two-entry example document. -/
theorem c9_entry_spans_witness :
    changelogMatches chlogDoc ≠ [] ∧ EntryChain chlogDoc.data (changelogMatches chlogDoc) :=
  ⟨by decide, c9_entry_spans chlogDoc (by decide)⟩

/-- A pattern whose head character occurs nowhere in the text occurs
nowhere as a substring. -/
theorem containsSub_eq_false_of_not_mem {x : Char} {pat' out : List Char}
    (hx : x ∉ out) : containsSub (x :: pat') out = false := by
  induction out with
  | nil => rfl
  | cons c rest ih =>
    have hxc : x ≠ c := fun h => hx (h ▸ List.mem_cons_self c rest)
    have h1 : (x :: pat').isPrefixOf (c :: rest) = false := by
      simp [List.isPrefixOf, hxc]
    rw [containsSub, h1, Bool.false_or]
    exact ih (fun h => hx (List.mem_cons_of_mem c h))

/-- When the pattern contains no newline, testing it as a prefix of a
block followed by a newline reduces to testing it on the block alone. -/
theorem isPrefixOf_append_newline {p : List Char} (a b : List Char) (hp : '\n' ∉ p) :
    p.isPrefixOf (a ++ '\n' :: b) = p.isPrefixOf a := by
  induction p generalizing a with
  | nil => simp [List.isPrefixOf]
  | cons q qs ih =>
    cases a with
    | nil =>
      have hq : q ≠ '\n' := fun h => hp (List.mem_cons.mpr (Or.inl h.symm))
      simp [List.isPrefixOf, hq]
    | cons x a' =>
      simp only [List.cons_append, List.isPrefixOf, List.append_eq]
      rw [ih a' (fun h => hp (List.mem_cons_of_mem q h))]

/-- The asterisk marker occurs nowhere after the head of the rendered
branch listing when no branch name contains it. -/
theorem star_not_mem_tail (current : List Char) (others : List (List Char))
    (hc : '*' ∉ current) (ho : ∀ b ∈ others, '*' ∉ b) :
    '*' ∉ (' ' :: (current ++ '\n' ::
      (others.map (fun b => ' ' :: ' ' :: (b ++ ['\n']))).flatten)) := by
  intro hmem
  rcases List.mem_cons.mp hmem with h | h
  · exact absurd h (by decide)
  rcases List.mem_append.mp h with h2 | h2
  · exact hc h2
  rcases List.mem_cons.mp h2 with h3 | h3
  · exact absurd h3 (by decide)
  obtain ⟨l, hl, hxl⟩ := List.mem_flatten.mp h3
  obtain ⟨b, hb, rfl⟩ := List.mem_map.mp hl
  rcases List.mem_cons.mp hxl with h4 | h4
  · exact absurd h4 (by decide)
  rcases List.mem_cons.mp h4 with h5 | h5
  · exact absurd h5 (by decide)
  rcases List.mem_append.mp h5 with h6 | h6
  · exact ho b hb h6
  · rcases List.mem_cons.mp h6 with h7 | h7
    · exact absurd h7 (by decide)
    · exact absurd h7 (by simp)

/-- The branch check of release.py is a substring test on the branch
listing: it passes exactly when the current branch name starts with
"master" (not only when it equals "master"), provided no branch name
contains the asterisk marker (git forbids it in reference names). -/
theorem branchCheck_iff (current : List Char) (others : List (List Char))
    (hc : '*' ∉ current) (ho : ∀ b ∈ others, '*' ∉ b) :
    containsSub starMaster (gitBranchOutput current others)
      = List.isPrefixOf "master".data current := by
  have h2 : containsSub starMaster (' ' :: (current ++ '\n' ::
      (others.map (fun b => ' ' :: ' ' :: (b ++ ['\n']))).flatten)) = false :=
    containsSub_eq_false_of_not_mem (star_not_mem_tail current others hc ho)
  show containsSub starMaster ('*' :: ' ' :: (current ++ '\n' ::
      (others.map (fun b => ' ' :: ' ' :: (b ++ ['\n']))).flatten)) = _
  rw [containsSub, h2, Bool.or_false]
  show List.isPrefixOf ('*' :: ' ' :: "master".data) ('*' :: ' ' :: (current ++ '\n' ::
      (others.map (fun b => ' ' :: ' ' :: (b ++ ['\n']))).flatten)) = _
  simp only [List.isPrefixOf, beq_self_eq_true, Bool.true_and]
  exact isPrefixOf_append_newline current _ (by decide)

/-- C7 counterexample: the branch check is a substring test on the
"git branch" output, so the current branch "master2" (a well-formed
branch name different from "master") passes it: the claim that the check
passes only when the current branch equals the release branch is false. -/
theorem c7_counterexample :
    containsSub starMaster (gitBranchOutput "master2".data ["master".data]) = true
    ∧ ("master2" : String) ≠ "master" :=
  ⟨rfl, by decide⟩

/-- C7 (corrected): over branch names free of the asterisk marker (git
forbids it in reference names), the branch check passes exactly when the
current branch name starts with "master"; whenever it does not (in
particular on every branch unrelated to master), and version resolution
itself succeeded, the run yields WrongBranch with an empty action trace,
so it aborts before the listing fetch and before any mutating action. -/
theorem c7_branch_check (current : List Char) (others : List (List Char))
    (hc : '*' ∉ current) (ho : ∀ b ∈ others, '*' ∉ b) :
    (containsSub starMaster (gitBranchOutput current others)
      = List.isPrefixOf "master".data current)
    ∧ (List.isPrefixOf "master".data current = false →
      ∀ (w : World) (ver : String),
        w.git_branch_output = gitBranchOutput current others →
        get_version none false w.version_json = Except.ok ver →
        release w = (Except.error ReleaseError.wrongBranch, [])) := by
  refine ⟨branchCheck_iff current others hc ho, ?_⟩
  intro hpre w ver hout hver
  unfold release
  simp only [hver]
  rw [hout, branchCheck_iff current others hc ho, hpre]
  simp

/-- Witness for c7_branch_check: on current branch "feature" (with
"master" among the other branches) the check fails and the run yields
WrongBranch with no external action. -/
theorem c7_branch_check_witness :
    (containsSub starMaster (gitBranchOutput "feature".data ["master".data])
      = List.isPrefixOf "master".data "feature".data)
    ∧ release ⟨⟨some "1.0.0", some ""⟩,
        gitBranchOutput "feature".data ["master".data], [], ""⟩
      = (Except.error ReleaseError.wrongBranch, []) := by
  have h := c7_branch_check "feature".data ["master".data] (by decide) (by decide)
  exact ⟨h.1, h.2 (by decide)
    ⟨⟨some "1.0.0", some ""⟩, gitBranchOutput "feature".data ["master".data], [], ""⟩
    "1.0.0" rfl rfl⟩

/-- C8 counterexample: on current branch "master2" (not the release
branch) the run does not yield WrongBranch and does invoke the listing
fetch: it proceeds to the uniqueness check and fails there with
AlreadyExists. -/
theorem c8_counterexample :
    ("master2" : String) ≠ "master"
    ∧ (release ⟨⟨some "1.0.0", some ""⟩,
        gitBranchOutput "master2".data [], ["v1.0.0"], ""⟩).1
      = Except.error ReleaseError.alreadyExists
    ∧ ReleaseError.alreadyExists ≠ ReleaseError.wrongBranch
    ∧ ReleaseAction.fetchReleases
      ∈ (release ⟨⟨some "1.0.0", some ""⟩,
          gitBranchOutput "master2".data [], ["v1.0.0"], ""⟩).2 :=
  ⟨by decide, rfl, by decide, by decide⟩

/-- C8 (corrected): the branch check always executes before the listing
fetch: whenever the check fails (and version resolution succeeded) the
run yields WrongBranch with an empty action trace, so the fetch is never
invoked; and every run whose trace contains the fetch passed the branch
check first. -/
theorem c8_branch_check_before_fetch :
    (∀ (w : World) (ver : String),
      get_version none false w.version_json = Except.ok ver →
      containsSub starMaster w.git_branch_output = false →
      release w = (Except.error ReleaseError.wrongBranch, []))
    ∧ (∀ w : World, ReleaseAction.fetchReleases ∈ (release w).2 →
      containsSub starMaster w.git_branch_output = true) := by
  constructor
  · intro w ver hver hb
    unfold release
    simp only [hver]
    rw [hb]
    simp
  · intro w hmem
    unfold release at hmem
    cases hv : get_version none false w.version_json with
    | error e =>
      rw [hv] at hmem
      simp at hmem
    | ok ver =>
      rw [hv] at hmem
      by_cases hb : containsSub starMaster w.git_branch_output = true
      · exact hb
      · rw [Bool.not_eq_true] at hb
        rw [hb] at hmem
        simp at hmem

/-- Witness for c8_branch_check_before_fetch: on current branch "dev" the
run yields WrongBranch and its action trace is empty. -/
theorem c8_branch_check_before_fetch_witness :
    release ⟨⟨some "1.0.0", some ""⟩, gitBranchOutput "dev".data [], [], ""⟩
      = (Except.error ReleaseError.wrongBranch, []) :=
  c8_branch_check_before_fetch.1
    ⟨⟨some "1.0.0", some ""⟩, gitBranchOutput "dev".data [], [], ""⟩ "1.0.0" rfl rfl
